import Mathlib

/-!
# Verification of the `http_unix_client` crate's specification

A shallow embedding of the crate's data model and operations:
bytes are `Nat` (values `< 256`), byte strings are `List Nat`,
textual data is `List Char`, fallible operations return `Except`.
The embedding follows `src/unix_url.rs`, `src/request.rs`,
`src/response.rs`, `src/client.rs`, `src/error.rs` and `src/body.rs`.
-/

namespace HttpUnixClient

/-! ## Hex codec (`hex::encode` in `UnixUrl::new`, `src/unix_url.rs`) -/

/-- One lowercase hex digit for a value `< 16`, as produced by `hex::encode`. -/
def hexDigitChar (n : Nat) : Char :=
  if n < 10 then Char.ofNat (48 + n) else Char.ofNat (87 + n)

/-- Lowercase hex encoding of a byte string, two digits per byte
(`hex::encode` called by `UnixUrl::new`). -/
def hexEncode : List Nat → List Char
  | [] => []
  | b :: bs => hexDigitChar (b / 16) :: hexDigitChar (b % 16) :: hexEncode bs

/-- Value of a lowercase hex digit character. -/
def hexDigitVal (c : Char) : Option Nat :=
  if 48 ≤ c.toNat ∧ c.toNat ≤ 57 then some (c.toNat - 48)
  else if 97 ≤ c.toNat ∧ c.toNat ≤ 102 then some (c.toNat - 87)
  else none

/-- Modelled from the spec: hex-decoding of the authority component
("decoding that authority (hex-decoding it) recovers exactly the bytes").
The repository itself ships no decode function, so this follows the
spec's words: pairs of lowercase hex digits back to bytes. -/
def hexDecode : List Char → Option (List Nat)
  | [] => some []
  | [_] => none
  | c1 :: c2 :: cs =>
    match hexDigitVal c1, hexDigitVal c2, hexDecode cs with
    | some h, some l, some rest => some ((16 * h + l) :: rest)
    | _, _, _ => none

/-- A character of the `[0-9a-f]` alphabet. -/
def isLowerHexDigit (c : Char) : Bool :=
  (48 ≤ c.toNat && c.toNat ≤ 57) || (97 ≤ c.toNat && c.toNat ≤ 102)

/-! ## `Path::to_string_lossy` (used by `UnixUrl::new` on the socket path)

`UnixUrl::new` hex-encodes `socket.as_ref().to_string_lossy().as_bytes()`.
On Unix a `Path` holds arbitrary bytes; `to_string_lossy` performs UTF-8
validation and replaces each maximal invalid subpart with U+FFFD
(bytes `EF BF BD`), exactly as Rust's `String::from_utf8_lossy`. -/

/-- A UTF-8 continuation byte (`0x80..=0xBF`). -/
def isCont (b : Nat) : Bool := 128 ≤ b && b ≤ 191

/-- Valid second byte for a 3- or 4-byte sequence lead `b`
(the special ranges of Rust's `run_utf8_validation`). -/
def utf8Second (b b1 : Nat) : Bool :=
  if b = 224 then 160 ≤ b1 && b1 ≤ 191
  else if b = 237 then 128 ≤ b1 && b1 ≤ 159
  else if b = 240 then 144 ≤ b1 && b1 ≤ 191
  else if b = 244 then 128 ≤ b1 && b1 ≤ 143
  else isCont b1

/-- The UTF-8 bytes of U+FFFD, substituted for each invalid subpart. -/
def replacementBytes : List Nat := [239, 191, 189]

/-- Byte-level model of `String::from_utf8_lossy` (hence of
`Path::to_string_lossy` on Unix): valid sequences are copied, each
maximal invalid subpart becomes U+FFFD (skip lengths follow the
`error_len` values of Rust's UTF-8 validation), a truncated final
sequence becomes a single U+FFFD. -/
def utf8Lossy : List Nat → List Nat
  | [] => []
  | b :: rest =>
    if b ≤ 127 then b :: utf8Lossy rest
    else if 194 ≤ b && b ≤ 223 then
      match rest with
      | [] => replacementBytes
      | b1 :: rest1 =>
        if isCont b1 then b :: b1 :: utf8Lossy rest1
        else replacementBytes ++ utf8Lossy (b1 :: rest1)
    else if 224 ≤ b && b ≤ 239 then
      match rest with
      | [] => replacementBytes
      | b1 :: rest1 =>
        if utf8Second b b1 then
          match rest1 with
          | [] => replacementBytes
          | b2 :: rest2 =>
            if isCont b2 then b :: b1 :: b2 :: utf8Lossy rest2
            else replacementBytes ++ utf8Lossy (b2 :: rest2)
        else replacementBytes ++ utf8Lossy (b1 :: rest1)
    else if 240 ≤ b && b ≤ 244 then
      match rest with
      | [] => replacementBytes
      | b1 :: rest1 =>
        if utf8Second b b1 then
          match rest1 with
          | [] => replacementBytes
          | b2 :: rest2 =>
            if isCont b2 then
              match rest2 with
              | [] => replacementBytes
              | b3 :: rest3 =>
                if isCont b3 then b :: b1 :: b2 :: b3 :: utf8Lossy rest3
                else replacementBytes ++ utf8Lossy (b3 :: rest3)
            else replacementBytes ++ utf8Lossy (b2 :: rest2)
        else replacementBytes ++ utf8Lossy (b1 :: rest1)
    else replacementBytes ++ utf8Lossy rest

/-- UTF-8 validity of a byte string (Rust's `run_utf8_validation`
accepting the whole input); same branch structure as `utf8Lossy`. -/
def validUtf8 : List Nat → Bool
  | [] => true
  | b :: rest =>
    if b ≤ 127 then validUtf8 rest
    else if 194 ≤ b && b ≤ 223 then
      match rest with
      | [] => false
      | b1 :: rest1 =>
        if isCont b1 then validUtf8 rest1
        else false
    else if 224 ≤ b && b ≤ 239 then
      match rest with
      | [] => false
      | b1 :: rest1 =>
        if utf8Second b b1 then
          match rest1 with
          | [] => false
          | b2 :: rest2 =>
            if isCont b2 then validUtf8 rest2
            else false
        else false
    else if 240 ≤ b && b ≤ 244 then
      match rest with
      | [] => false
      | b1 :: rest1 =>
        if utf8Second b b1 then
          match rest1 with
          | [] => false
          | b2 :: rest2 =>
            if isCont b2 then
              match rest2 with
              | [] => false
              | b3 :: rest3 =>
                if isCont b3 then validUtf8 rest3
                else false
            else false
        else false
    else false

/-! ## `UnixUrl` (`src/unix_url.rs`) -/

/-- The components of a parsed `unix://` URL (`UnixUrl` wraps `url::Url`;
we keep the parts the crate's claims are about: the host/authority slot
holding the hex-encoded socket path, then path, query and fragment). -/
structure UnixUrl where
  authority : List Char
  path : List Char
  query : Option (List Char)
  fragment : Option (List Char)
deriving DecidableEq, Repr

/-- Splits a character list at the first occurrence of `sep`:
the part before it, and (when present) the part after it. -/
def splitAtChar (sep : Char) : List Char → List Char × Option (List Char)
  | [] => ([], none)
  | c :: cs =>
    if c = sep then ([], some cs)
    else
      let r := splitAtChar sep cs
      (c :: r.1, r.2)

/-- Path normalization of `UnixUrl::new`: prepend `/` unless the relative
path already starts with one. -/
def normalizeRelPath (path : List Char) : List Char :=
  match path with
  | '/' :: _ => path
  | _ => '/' :: path

/-- `UnixUrl::new` (src/unix_url.rs:46-62): hex-encode the bytes of
`socket.as_ref().to_string_lossy()` into the authority, normalize the
relative path, and parse `unix://<hex><path>`. The `url::Url` parser is
an external collaborator; on these already-composed strings it splits
the fragment at the first `#` and the query at the first `?`, which is
modelled here directly. -/
def UnixUrl.new (socket : List Nat) (path : List Char) : UnixUrl :=
  let encodedSocket := hexEncode (utf8Lossy socket)
  let normalizedPath := normalizeRelPath path
  let beforeFragment := (splitAtChar '#' normalizedPath).1
  let fragment := (splitAtChar '#' normalizedPath).2
  let urlPath := (splitAtChar '?' beforeFragment).1
  let query := (splitAtChar '?' beforeFragment).2
  { authority := encodedSocket
    path := urlPath
    query := query
    fragment := fragment }

/-- Serialization of a `UnixUrl` back to a string (`Url::as_str`):
`unix://<authority><path>[?query][#fragment]`. -/
def UnixUrl.as_str (u : UnixUrl) : List Char :=
  "unix://".data ++ u.authority ++ u.path ++
    (match u.query with
     | some q => '?' :: q
     | none => []) ++
    (match u.fragment with
     | some f => '#' :: f
     | none => [])

/-- Bytes of an ASCII string literal. -/
def asciiBytes (s : String) : List Nat := s.data.map Char.toNat

/-! ## Lemmas about the hex codec and the UTF-8 model -/

theorem hexDigit_roundtrip : ∀ n < 16, hexDigitVal (hexDigitChar n) = some n := by decide

theorem hexDecode_hexEncode (bs : List Nat) (h : ∀ b ∈ bs, b < 256) :
    hexDecode (hexEncode bs) = some bs := by
  induction bs with
  | nil => rfl
  | cons b rest ih =>
    have hb : b < 256 := h b (List.mem_cons_self _ _)
    have h1 := hexDigit_roundtrip (b / 16) (by omega)
    have h2 := hexDigit_roundtrip (b % 16) (by omega)
    have ihr := ih (fun x hx => h x (List.mem_cons_of_mem _ hx))
    show hexDecode (hexDigitChar (b / 16) :: hexDigitChar (b % 16) :: hexEncode rest) = _
    simp only [hexDecode, h1, h2, ihr]
    have hb' : 16 * (b / 16) + b % 16 = b := by omega
    rw [hb']

theorem hexEncode_length (bs : List Nat) : (hexEncode bs).length = 2 * bs.length := by
  induction bs with
  | nil => rfl
  | cons b rest ih =>
    show (hexDigitChar (b / 16) :: hexDigitChar (b % 16) :: hexEncode rest).length = _
    simp only [List.length_cons, ih, List.length]
    omega

theorem hexDigitChar_isHex : ∀ n < 16, isLowerHexDigit (hexDigitChar n) = true := by decide

theorem hexEncode_alphabet (bs : List Nat) (h : ∀ b ∈ bs, b < 256) :
    ∀ c ∈ hexEncode bs, isLowerHexDigit c = true := by
  induction bs with
  | nil => intro c hc; simp [hexEncode] at hc
  | cons b rest ih =>
    intro c hc
    have hb : b < 256 := h b (List.mem_cons_self _ _)
    have hshape : hexEncode (b :: rest) =
        hexDigitChar (b / 16) :: hexDigitChar (b % 16) :: hexEncode rest := rfl
    rw [hshape] at hc
    simp only [List.mem_cons] at hc
    rcases hc with rfl | rfl | hc
    · exact hexDigitChar_isHex _ (by omega)
    · exact hexDigitChar_isHex _ (by omega)
    · exact ih (fun x hx => h x (List.mem_cons_of_mem _ hx)) c hc

/-- On UTF-8-valid byte strings, `to_string_lossy` is the identity. -/
theorem utf8Lossy_of_valid (l : List Nat) (h : validUtf8 l = true) : utf8Lossy l = l := by
  induction l using utf8Lossy.induct with
  | case1 => rfl
  | _ =>
    rw [validUtf8.eq_def] at h
    rw [utf8Lossy.eq_def]
    dsimp only at h ⊢
    split_ifs at h ⊢ <;> simp_all

/-! ## Claim C1 — address-encoding round trip -/

/-- C1, counterexample: the claim fails for the socket path consisting of
the single byte `0xFF` (a legal, non-UTF8 Unix path). `UnixUrl::new`
first applies `to_string_lossy`, which replaces the byte with U+FFFD, so
the authority has length 6 ≠ 2 × 1 and hex-decoding it does not recover
the original byte. -/
theorem address_roundtrip_counterexample :
    ¬ ((UnixUrl.new [255] "/".data).authority.length = 2 * [255].length ∧
       hexDecode (UnixUrl.new [255] "/".data).authority = some [255]) := by
  decide

/-- C1, amended: for every nonempty socket path P whose byte sequence is
valid UTF-8, encoding P yields an authority matching `[0-9a-f]+` of
length 2 × byte-length P, and hex-decoding that authority recovers
exactly the bytes of P. -/
theorem address_roundtrip_utf8 (P : List Nat) (path : List Char)
    (hne : P ≠ []) (hbytes : ∀ b ∈ P, b < 256) (hvalid : validUtf8 P = true) :
    (UnixUrl.new P path).authority.length = 2 * P.length ∧
    (UnixUrl.new P path).authority ≠ [] ∧
    (∀ c ∈ (UnixUrl.new P path).authority, isLowerHexDigit c = true) ∧
    hexDecode (UnixUrl.new P path).authority = some P := by
  have hauth : (UnixUrl.new P path).authority = hexEncode P := by
    show hexEncode (utf8Lossy P) = hexEncode P
    rw [utf8Lossy_of_valid P hvalid]
  rw [hauth]
  refine ⟨hexEncode_length P, ?_, hexEncode_alphabet P hbytes, hexDecode_hexEncode P hbytes⟩
  intro hnil
  have := hexEncode_length P
  rw [hnil] at this
  cases P with
  | nil => exact hne rfl
  | cons b bs => simp [List.length] at this

/-- C1, witness: the amended round trip at the socket path
`/tmp/my.socket` used throughout the crate's tests. -/
theorem address_roundtrip_utf8_witness :
    asciiBytes "/tmp/my.socket" ≠ [] ∧
    (∀ b ∈ asciiBytes "/tmp/my.socket", b < 256) ∧
    validUtf8 (asciiBytes "/tmp/my.socket") = true ∧
    ((UnixUrl.new (asciiBytes "/tmp/my.socket") "/".data).authority.length =
        2 * (asciiBytes "/tmp/my.socket").length ∧
     (UnixUrl.new (asciiBytes "/tmp/my.socket") "/".data).authority ≠ [] ∧
     (∀ c ∈ (UnixUrl.new (asciiBytes "/tmp/my.socket") "/".data).authority,
        isLowerHexDigit c = true) ∧
     hexDecode (UnixUrl.new (asciiBytes "/tmp/my.socket") "/".data).authority =
        some (asciiBytes "/tmp/my.socket")) :=
  ⟨by decide, by decide, by decide,
    address_roundtrip_utf8 (asciiBytes "/tmp/my.socket") "/".data
      (by decide) (by decide) (by decide)⟩

/-! ## Error model (`src/error.rs`)

The payloads of errors originating in external crates (`url`, `http`,
`hyper`, `serde_urlencoded`, `serde_json`, `hyper_util`) are opaque to
this crate; each is modelled as a wrapper around an abstract tag. -/

/-- `url::ParseError` (external payload, abstract). -/
structure UrlParseError where
  tag : Nat
deriving DecidableEq, Repr

/-- `http::Error` (external payload, abstract). -/
structure HttpError where
  tag : Nat
deriving DecidableEq, Repr

/-- `hyper::Error` (external payload, abstract). -/
structure HyperError where
  tag : Nat
deriving DecidableEq, Repr

/-- `serde_urlencoded::ser::Error` (external payload, abstract). -/
structure SerializeUrlError where
  tag : Nat
deriving DecidableEq, Repr

/-- `serde_json::Error` (external payload, abstract). -/
structure SerializeJsonError where
  tag : Nat
deriving DecidableEq, Repr

/-- `http::uri::InvalidUriParts` (external payload, abstract). -/
structure InvalidUriParts where
  tag : Nat
deriving DecidableEq, Repr

/-- `hyper_util::client::legacy::Error` (external payload, abstract). -/
structure ClientError where
  tag : Nat
deriving DecidableEq, Repr

/-- `StatusError` (src/error.rs:80-92): HTTP status code plus optional
reason phrase. -/
structure StatusError where
  code : Nat
  reason : Option (List Nat)
deriving DecidableEq, Repr

/-- `BuilderError` (src/error.rs:66-78). -/
inductive BuilderError where
  | urlParse (e : UrlParseError)
  | http (e : HttpError)
  | serializeUrl (e : SerializeUrlError)
  | serializeJson (e : SerializeJsonError)
deriving DecidableEq, Repr

/-- The unified `Error` enum (src/error.rs:17-39). -/
inductive Error where
  | urlParseError (e : UrlParseError)
  | builderError (e : BuilderError)
  | httpError (e : HttpError)
  | hyperError (e : HyperError)
  | decode (e : SerializeJsonError)
  | invalidUriParts (e : InvalidUriParts)
  | clientError (e : ClientError)
  | statusError (e : StatusError)
deriving DecidableEq, Repr

/-- `Error::status` (src/error.rs:58-63): the status code when the error
was generated from a response. -/
def Error.status : Error → Option Nat
  | .statusError e => some e.code
  | _ => none

/-- `Error::is_status` (src/error.rs:48-50). -/
def Error.is_status : Error → Bool
  | .statusError _ => true
  | _ => false

/-! ## Headers (`http::HeaderMap`, used via `src/request.rs`)

`http::HeaderMap` is an ordered multimap with case-insensitive
(stored-lowercase) names and a per-value sensitive flag; it is modelled
as a list of name/value entries, observed through `get_all`. -/

/-- A parsed header name (lowercase bytes). -/
abbrev HeaderName := List Nat

/-- `http::HeaderValue`: opaque bytes plus the sensitive flag. -/
structure HeaderValue where
  bytes : List Nat
  sensitive : Bool
deriving DecidableEq, Repr

/-- `HeaderValue::set_sensitive`. -/
def HeaderValue.set_sensitive (v : HeaderValue) (b : Bool) : HeaderValue :=
  { v with sensitive := b }

/-- The entries of a header map. -/
abbrev HeaderMap := List (HeaderName × HeaderValue)

/-- `HeaderMap::append`: always adds the entry, keeping existing ones. -/
def HeaderMap.append (m : HeaderMap) (k : HeaderName) (v : HeaderValue) : HeaderMap :=
  m ++ [(k, v)]

/-- `HeaderMap::insert`: replaces every value previously stored under the
key. -/
def HeaderMap.insert (m : HeaderMap) (k : HeaderName) (v : HeaderValue) : HeaderMap :=
  m.filter (fun e => e.1 ≠ k) ++ [(k, v)]

/-- `HeaderMap::get_all`: all values stored under a key, in order. -/
def HeaderMap.get_all (m : HeaderMap) (k : HeaderName) : List HeaderValue :=
  (m.filter (fun e => e.1 = k)).map (fun e => e.2)

/-- The `AUTHORIZATION` header name. -/
def AUTHORIZATION : HeaderName := asciiBytes "authorization"

/-- The `CONTENT_TYPE` header name. -/
def CONTENT_TYPE : HeaderName := asciiBytes "content-type"

/-! ## base64 (`BASE64_STANDARD.encode`, used by `basic_auth`) -/

/-- The standard base64 alphabet. -/
def base64Byte (n : Nat) : Nat :=
  if n < 26 then 65 + n
  else if n < 52 then 97 + (n - 26)
  else if n < 62 then 48 + (n - 52)
  else if n = 62 then 43
  else 47

/-- Standard base64 with `=` padding (`BASE64_STANDARD`), producing the
ASCII bytes of the encoding. -/
def base64Encode : List Nat → List Nat
  | [] => []
  | [b0] => [base64Byte (b0 / 4), base64Byte (b0 % 4 * 16), 61, 61]
  | [b0, b1] => [base64Byte (b0 / 4), base64Byte (b0 % 4 * 16 + b1 / 16),
                 base64Byte (b1 % 16 * 4), 61]
  | b0 :: b1 :: b2 :: rest =>
    base64Byte (b0 / 4) :: base64Byte (b0 % 4 * 16 + b1 / 16) ::
      base64Byte (b1 % 16 * 4 + b2 / 64) :: base64Byte (b2 % 64) ::
      base64Encode rest

/-! ## form-urlencoded serialization (`url::form_urlencoded`, used by
`RequestBuilder::query` through `serde_urlencoded`) -/

/-- An uppercase hex digit for a value `< 16` (percent-escapes use
uppercase hex). -/
def upperHexDigitChar (n : Nat) : Char :=
  if n < 10 then Char.ofNat (48 + n) else Char.ofNat (55 + n)

/-- `application/x-www-form-urlencoded` byte serialization: alphanumeric
and `*-._` unchanged, space becomes `+`, everything else `%XX`. -/
def formByte (b : Nat) : List Char :=
  if b = 32 then ['+']
  else if (48 ≤ b ∧ b ≤ 57) ∨ (65 ≤ b ∧ b ≤ 90) ∨ (97 ≤ b ∧ b ≤ 122) ∨
      b = 42 ∨ b = 45 ∨ b = 46 ∨ b = 95 then [Char.ofNat b]
  else ['%', upperHexDigitChar (b / 16), upperHexDigitChar (b % 16)]

/-- form-urlencoded serialization of a byte string. -/
def formEncode (bs : List Nat) : List Char :=
  (bs.map formByte).flatten

/-- One serialized `key=value` pair. -/
def serializePair (p : List Nat × List Nat) : List Char :=
  formEncode p.1 ++ '=' :: formEncode p.2

/-- `Url::query_pairs_mut` followed by appending each pair
(`Serializer::append_pair`): pairs are appended onto the existing query
string, `&`-separated; after the serializer is dropped the query is
present (possibly empty) even when nothing was appended. -/
def appendPairsToQuery (q : Option (List Char)) (ps : List (List Nat × List Nat)) :
    List Char :=
  ps.foldl
    (fun acc p => if acc.isEmpty then serializePair p else acc ++ '&' :: serializePair p)
    (q.getD [])

/-! ## `Body` (`src/body.rs`), `Method`, `Version`, `Extensions` -/

/-- `Body`: an owned byte buffer. -/
structure Body where
  inner : List Nat
deriving DecidableEq, Repr

/-- `http::Method` (the standard verbs the crate's shortcuts use). -/
inductive Method where
  | GET | POST | PUT | PATCH | DELETE | HEAD | OPTIONS | CONNECT | TRACE
deriving DecidableEq, Repr

/-- `http::Version`. -/
inductive Version where
  | http09 | http10 | http11 | h2 | h3
deriving DecidableEq, Repr

/-- `Version::default()` is HTTP/1.1. -/
def Version.default : Version := Version.http11

/-- `http::Extensions`, restricted to the entry the claims observe: the
`hyper::ext::ReasonPhrase` protocol extension. -/
structure Extensions where
  reasonPhrase : Option (List Nat) := none
deriving DecidableEq, Repr

/-! ## `Request` and `RequestBuilder` (`src/request.rs`) -/

/-- `Request` (src/request.rs:12-20). -/
structure Request where
  method : Method
  url : UnixUrl
  headers : HeaderMap
  body : Option Body
  version : Version
  extensions : Extensions
deriving DecidableEq, Repr

/-- `Request::new` (src/request.rs:25-34). -/
def Request.new (method : Method) (url : UnixUrl) : Request :=
  { method := method
    url := url
    headers := []
    body := none
    version := Version.default
    extensions := {} }

/-- `Client` (src/client.rs:10-13): a cheaply cloneable handle to the
hyper Unix-socket transport; the handle itself carries no observable
state. -/
structure Client where
deriving Repr

instance : DecidableEq Client := fun _ _ => isTrue rfl

deriving instance DecidableEq for Except

/-- `RequestBuilder` (src/request.rs:132-137). -/
structure RequestBuilder where
  client : Client
  request : Except Error Request
deriving DecidableEq, Repr

/-- `RequestBuilder::header_sensitive` (src/request.rs:164-188). The
`TryFrom` conversions of the key and value belong to the `http` crate;
their results are taken as inputs, exactly the values the two `match`es
in the source scrutinize. -/
def RequestBuilder.header_sensitive (self : RequestBuilder)
    (key : Except HttpError HeaderName) (value : Except HttpError HeaderValue)
    (sensitive : Bool) : RequestBuilder :=
  match self.request with
  | .ok req =>
    match key with
    | .ok k =>
      match value with
      | .ok v =>
        let v := if sensitive then v.set_sensitive true else v
        { self with request := .ok ({ req with headers := req.headers.append k v }) }
      | .error err => { self with request := .error (.builderError (.http err)) }
    | .error err => { self with request := .error (.builderError (.http err)) }
  | .error _ => self

/-- `RequestBuilder::header` (src/request.rs:153-161). -/
def RequestBuilder.header (self : RequestBuilder)
    (key : Except HttpError HeaderName) (value : Except HttpError HeaderValue) :
    RequestBuilder :=
  self.header_sensitive key value false

/-- One step of the loop in `RequestBuilder::headers`: `HeaderMap`
iteration yields `(Some name, value)` the first time a name appears and
`(None, value)` for its further values; `Some` performs `insert`,
`None` appends under the previous name. -/
def mergeHeaderSeq (hm : HeaderMap) (prev : Option HeaderName) :
    List (Option HeaderName × HeaderValue) → HeaderMap
  | [] => hm
  | (some k, v) :: rest => mergeHeaderSeq (hm.insert k v) (some k) rest
  | (none, v) :: rest =>
    match prev with
    | some k => mergeHeaderSeq (hm.append k v) prev rest
    | none => mergeHeaderSeq hm prev rest

/-- `RequestBuilder::headers` (src/request.rs:193-222). The bulk
collection arrives as the result of `HeaderMap::try_from` in iteration
form. -/
def RequestBuilder.headers (self : RequestBuilder)
    (headers : Except HttpError (List (Option HeaderName × HeaderValue))) :
    RequestBuilder :=
  match self.request with
  | .ok req =>
    match headers with
    | .ok hs =>
      { self with request := .ok ({ req with headers := mergeHeaderSeq req.headers none hs }) }
    | .error err => { self with request := .error (.builderError (.http err)) }
  | .error _ => self

/-- `RequestBuilder::basic_auth` (src/request.rs:238-249): the value is
`Basic ` followed by base64 of `user:password` (or of `user` alone),
added as a sensitive `Authorization` header. -/
def RequestBuilder.basic_auth (self : RequestBuilder)
    (username : List Nat) (password : Option (List Nat)) : RequestBuilder :=
  let decode := match password with
    | some pw => username ++ 58 :: pw
    | none => username
  let encode := base64Encode decode
  self.header_sensitive (.ok AUTHORIZATION)
    (.ok { bytes := asciiBytes "Basic " ++ encode, sensitive := false }) true

/-- `RequestBuilder::bearer_auth` (src/request.rs:252-258). -/
def RequestBuilder.bearer_auth (self : RequestBuilder) (token : List Nat) :
    RequestBuilder :=
  self.header_sensitive (.ok AUTHORIZATION)
    (.ok { bytes := asciiBytes "Bearer " ++ token, sensitive := false }) true

/-- `RequestBuilder::body` (src/request.rs:261-269). -/
def RequestBuilder.body (self : RequestBuilder) (body : Body) : RequestBuilder :=
  match self.request with
  | .ok req => { self with request := .ok ({ req with body := some body }) }
  | .error _ => self

/-- `RequestBuilder::query` (src/request.rs:272-297). The
`serde_urlencoded` serializer appends the pairs it manages to serialize
through `query_pairs_mut` and reports an error if serialization fails
partway (`ps` and `serErr` are its outputs, consulted only when the
builder holds a request, as in the source). Afterwards a now-empty query
is normalized to absent, and a serialization error latches the builder. -/
def RequestBuilder.query (self : RequestBuilder)
    (ps : List (List Nat × List Nat)) (serErr : Option SerializeUrlError) :
    RequestBuilder :=
  let step1 : RequestBuilder × Option SerializeUrlError :=
    match self.request with
    | .ok req =>
      let url2 := { req.url with query := some (appendPairsToQuery req.url.query ps) }
      ({ self with request := .ok ({ req with url := url2 }) }, serErr)
    | .error _ => (self, none)
  let self := step1.1
  let error := step1.2
  let self : RequestBuilder :=
    match self.request with
    | .ok req =>
      if req.url.query = some [] then
        { self with request := .ok ({ req with url := { req.url with query := none } }) }
      else self
    | .error _ => self
  match error with
  | some err => { self with request := .error (.builderError (.serializeUrl err)) }
  | none => self

/-- `RequestBuilder::version` (src/request.rs:300-305). -/
def RequestBuilder.version (self : RequestBuilder) (version : Version) : RequestBuilder :=
  match self.request with
  | .ok req => { self with request := .ok ({ req with version := version }) }
  | .error _ => self

/-- `RequestBuilder::form` (src/request.rs:308-326):
`serde_urlencoded::to_string(form)` is evaluated only on an `Ok` builder;
its result arrives as `ser`. -/
def RequestBuilder.form (self : RequestBuilder)
    (ser : Except SerializeUrlError (List Nat)) : RequestBuilder :=
  match self.request with
  | .ok req =>
    match ser with
    | .ok body =>
      let ct : HeaderValue :=
        { bytes := asciiBytes "application/x-www-form-urlencoded", sensitive := false }
      let hs := req.headers.insert CONTENT_TYPE ct
      { self with request := .ok ({ req with headers := hs, body := some ({ inner := body }) }) }
    | .error err => { self with request := .error (.builderError (.serializeUrl err)) }
  | .error _ => self

/-- `RequestBuilder::json` (src/request.rs:340-356):
`serde_json::to_vec(json)` is evaluated only on an `Ok` builder; its
result arrives as `ser`. -/
def RequestBuilder.json (self : RequestBuilder)
    (ser : Except SerializeJsonError (List Nat)) : RequestBuilder :=
  match self.request with
  | .ok req =>
    match ser with
    | .ok body =>
      let ct : HeaderValue := { bytes := asciiBytes "application/json", sensitive := false }
      let hs := req.headers.insert CONTENT_TYPE ct
      { self with request := .ok ({ req with headers := hs, body := some ({ inner := body }) }) }
    | .error err => { self with request := .error (.builderError (.serializeJson err)) }
  | .error _ => self

/-- `RequestBuilder::build` (src/request.rs:362-364). -/
def RequestBuilder.build (self : RequestBuilder) : Except Error Request :=
  self.request

/-- `RequestBuilder::build_split` (src/request.rs:371-373). -/
def RequestBuilder.build_split (self : RequestBuilder) :
    Client × Except Error Request :=
  (self.client, self.request)

/-- `RequestBuilder::try_clone` (src/request.rs:421-426): `Some` of a
builder holding a copy of the request when the state is `Ok`, `None`
otherwise. -/
def RequestBuilder.try_clone (self : RequestBuilder) : Option RequestBuilder :=
  match self.request with
  | .ok req => some { client := self.client, request := .ok req }
  | .error _ => none

/-- `Client::request` (src/client.rs:30-39), for inputs on which
`UnixUrl::new`'s URL parse succeeds (the composed string is already
scheme + hex authority + normalized path). -/
def Client.request (self : Client) (method : Method) (socket : List Nat)
    (path : List Char) : RequestBuilder :=
  { client := self, request := .ok (Request.new method (UnixUrl.new socket path)) }

/-- `Client::get` (src/client.rs:42-47). -/
def Client.get (self : Client) (socket : List Nat) (path : List Char) : RequestBuilder :=
  self.request Method.GET socket path

/-- `Client::post` (src/client.rs:50-55). -/
def Client.post (self : Client) (socket : List Nat) (path : List Char) : RequestBuilder :=
  self.request Method.POST socket path

/-! ## `Response` (`src/response.rs`) -/

/-- One frame of the streaming response body (`http_body::Frame`). -/
inductive Frame where
  | data (bytes : List Nat)
  | trailers (fields : HeaderMap)
deriving DecidableEq, Repr

/-- `Response` (src/response.rs:22-25): the wrapped `http::Response`
parts plus the originating URL; the streaming body is the remaining
sequence of frame results that `Body::frame` will yield. -/
structure Response where
  status : Nat
  version : Version
  headers : HeaderMap
  bodyFrames : List (Except HyperError Frame)
  extensions : Extensions
  url : UnixUrl
deriving DecidableEq, Repr

/-- `StatusCode::is_client_error`: 400..=499. -/
def is_client_error (s : Nat) : Bool := 400 ≤ s && s ≤ 499

/-- `StatusCode::is_server_error`: 500..=599. -/
def is_server_error (s : Nat) : Bool := 500 ≤ s && s ≤ 599

/-- `Response::error_for_status` (src/response.rs:328-336). -/
def Response.error_for_status (self : Response) : Except Error Response :=
  let status := self.status
  if is_client_error status || is_server_error status then
    .error (.statusError { code := status, reason := self.extensions.reasonPhrase })
  else .ok self

/-- `Response::error_for_status_ref` (src/response.rs:359-367); same
classification, the `Ok` case hands back the borrowed response. -/
def Response.error_for_status_ref (self : Response) : Except Error Response :=
  let status := self.status
  if is_client_error status || is_server_error status then
    .error (.statusError { code := status, reason := self.extensions.reasonPhrase })
  else .ok self

/-- `Response::chunk` (src/response.rs:297-305): pull one frame; a data
frame yields `Some` of its bytes, a stream error propagates, any other
single frame (or exhaustion) yields `None`. The updated response keeps
the unconsumed frames. -/
def Response.chunk (self : Response) :
    Except Error (Option (List Nat)) × Response :=
  match self.bodyFrames with
  | [] => (.ok none, self)
  | f :: rest =>
    match f with
    | .error e => (.error (.hyperError e), { self with bodyFrames := rest })
    | .ok (.data bs) => (.ok (some bs), { self with bodyFrames := rest })
    | .ok (.trailers _) => (.ok none, { self with bodyFrames := rest })

/-- The crate's documented consumption loop
(`while let Some(chunk) = res.chunk().await? { ... }`): collect chunks
until `chunk` returns `None` or an error. -/
def chunkAll : List (Except HyperError Frame) → List (List Nat)
  | .ok (.data bs) :: rest => bs :: chunkAll rest
  | _ => []

/-! ## Claim C4 — bulk-header merge -/

/-- The iteration form `HeaderMap` produces for a grouped collection:
each key is yielded once with its first value (`Some`), its further
values follow with `None`. -/
def iterForm : List (HeaderName × List HeaderValue) → List (Option HeaderName × HeaderValue)
  | [] => []
  | (k, vs) :: rest =>
    (match vs with
     | [] => []
     | v :: vt => (some k, v) :: vt.map (fun v2 => ((none : Option HeaderName), v2))) ++
      iterForm rest

/-- Appending a run of values under one key. -/
def appendAll (hm : HeaderMap) (k : HeaderName) (vt : List HeaderValue) : HeaderMap :=
  vt.foldl (fun h v => h.append k v) hm

theorem filter_fused_self (m : HeaderMap) (k : HeaderName) :
    m.filter (fun a => decide (a.1 = k) && !decide (a.1 = k)) = [] := by
  induction m with
  | nil => rfl
  | cons e m ih => by_cases he : e.1 = k <;> simp [List.filter_cons, he, ih]

theorem filter_fused_other (m : HeaderMap) (k k' : HeaderName) (h : k' ≠ k) :
    m.filter (fun a => decide (a.1 = k') && !decide (a.1 = k)) =
      m.filter (fun e => decide (e.1 = k')) := by
  apply List.filter_congr
  intro a _
  by_cases ha : a.1 = k'
  · have ha2 : ¬ a.1 = k := by rw [ha]; exact h
    simp [ha, ha2, h]
  · simp [ha]

theorem get_all_append (m : HeaderMap) (k : HeaderName) (v : HeaderValue)
    (k' : HeaderName) :
    (m.append k v).get_all k' = m.get_all k' ++ if k' = k then [v] else [] := by
  by_cases h : k' = k
  · subst h
    simp [HeaderMap.append, HeaderMap.get_all, List.filter_append]
  · simp [HeaderMap.append, HeaderMap.get_all, List.filter_append, h, Ne.symm h]

theorem get_all_insert (m : HeaderMap) (k : HeaderName) (v : HeaderValue)
    (k' : HeaderName) :
    (m.insert k v).get_all k' = if k' = k then [v] else m.get_all k' := by
  by_cases h : k' = k
  · subst h
    simp [HeaderMap.insert, HeaderMap.get_all, List.filter_append, filter_fused_self]
  · simp [HeaderMap.insert, HeaderMap.get_all, List.filter_append,
      filter_fused_other m k k' h, h, Ne.symm h]

theorem get_all_appendAll (vt : List HeaderValue) (m : HeaderMap) (k : HeaderName)
    (k' : HeaderName) :
    (appendAll m k vt).get_all k' = m.get_all k' ++ if k' = k then vt else [] := by
  induction vt generalizing m with
  | nil => by_cases h : k' = k <;> simp [appendAll, h]
  | cons v vt ih =>
    show (appendAll (m.append k v) k vt).get_all k' = _
    rw [ih, get_all_append]
    by_cases h : k' = k <;> simp [h]

theorem mergeHeaderSeq_none_run (vt : List HeaderValue) (hm : HeaderMap)
    (k : HeaderName) (ys : List (Option HeaderName × HeaderValue)) :
    mergeHeaderSeq hm (some k)
        (vt.map (fun v2 => ((none : Option HeaderName), v2)) ++ ys) =
      mergeHeaderSeq (appendAll hm k vt) (some k) ys := by
  induction vt generalizing hm with
  | nil => rfl
  | cons v vt ih => exact ih (hm.append k v)

theorem mergeHeaderSeq_frame (B : List (HeaderName × List HeaderValue))
    (hm : HeaderMap) (p : Option HeaderName) (k : HeaderName)
    (hne : ∀ g ∈ B, g.2 ≠ []) (hk : ∀ g ∈ B, g.1 ≠ k) :
    (mergeHeaderSeq hm p (iterForm B)).get_all k = hm.get_all k := by
  induction B generalizing hm p with
  | nil => rfl
  | cons g rest ih =>
    obtain ⟨k0, vs⟩ := g
    have hvs : vs ≠ [] := hne (k0, vs) (List.mem_cons_self _ _)
    obtain ⟨v, vt, rfl⟩ : ∃ v vt, vs = v :: vt := by
      cases vs with
      | nil => exact absurd rfl hvs
      | cons v vt => exact ⟨v, vt, rfl⟩
    have hk0 : k0 ≠ k := hk (k0, v :: vt) (List.mem_cons_self _ _)
    show (mergeHeaderSeq (hm.insert k0 v) (some k0)
      (vt.map (fun v2 => ((none : Option HeaderName), v2)) ++ iterForm rest)).get_all k = _
    rw [mergeHeaderSeq_none_run,
      ih _ _ (fun g hg => hne g (List.mem_cons_of_mem _ hg))
        (fun g hg => hk g (List.mem_cons_of_mem _ hg)),
      get_all_appendAll, get_all_insert]
    simp [Ne.symm hk0]

theorem mergeHeaderSeq_get_all (B : List (HeaderName × List HeaderValue))
    (H : HeaderMap) (p : Option HeaderName) (k : HeaderName)
    (hnodup : (B.map Prod.fst).Nodup) (hne : ∀ g ∈ B, g.2 ≠ []) :
    (mergeHeaderSeq H p (iterForm B)).get_all k =
      match B.find? (fun g => g.1 == k) with
      | some g => g.2
      | none => H.get_all k := by
  induction B generalizing H p with
  | nil => rfl
  | cons g rest ih =>
    obtain ⟨k0, vs⟩ := g
    have hvs : vs ≠ [] := hne (k0, vs) (List.mem_cons_self _ _)
    obtain ⟨v, vt, rfl⟩ : ∃ v vt, vs = v :: vt := by
      cases vs with
      | nil => exact absurd rfl hvs
      | cons v vt => exact ⟨v, vt, rfl⟩
    rw [List.map_cons, List.nodup_cons] at hnodup
    obtain ⟨hk0notin, hnodup2⟩ := hnodup
    show (mergeHeaderSeq (H.insert k0 v) (some k0)
      (vt.map (fun v2 => ((none : Option HeaderName), v2)) ++ iterForm rest)).get_all k = _
    rw [mergeHeaderSeq_none_run]
    by_cases hkk : k0 = k
    · subst hkk
      have hrest : ∀ g ∈ rest, g.1 ≠ k0 := by
        intro g hg hgk
        have hmem : g.1 ∈ rest.map Prod.fst := List.mem_map_of_mem Prod.fst hg
        rw [hgk] at hmem
        exact hk0notin hmem
      rw [mergeHeaderSeq_frame rest _ _ k0
          (fun g hg => hne g (List.mem_cons_of_mem _ hg)) hrest,
        get_all_appendAll, get_all_insert]
      simp [List.find?]
    · rw [ih _ _ hnodup2 (fun g hg => hne g (List.mem_cons_of_mem _ hg))]
      have hfind : List.find? (fun g => g.1 == k) ((k0, v :: vt) :: rest) =
          List.find? (fun g => g.1 == k) rest := by
        have : ((k0, v :: vt).1 == k) = false := by
          simp [hkk]
        simp [List.find?, this]
      rw [hfind]
      cases hf : List.find? (fun g => g.1 == k) rest with
      | some g => simp
      | none =>
        simp only
        rw [get_all_appendAll, get_all_insert]
        have hkk2 : ¬ k = k0 := fun hh => hkk hh.symm
        simp [hkk2]

/-- C4: on an `Ok` builder, `headers(B)` merges the grouped bulk
collection B so that for every key appearing in B the stored values
become exactly B's values for that key in order (first occurrence
replaces, later occurrences append), while keys absent from B keep
their previous values. -/
theorem headers_bulk_merge (c : Client) (r : Request)
    (B : List (HeaderName × List HeaderValue)) (k : HeaderName)
    (hnodup : (B.map Prod.fst).Nodup) (hne : ∀ g ∈ B, g.2 ≠ []) :
    (RequestBuilder.headers ⟨c, .ok r⟩ (.ok (iterForm B))).build.map
        (fun req => req.headers.get_all k) =
      .ok (match B.find? (fun g => g.1 == k) with
           | some g => g.2
           | none => r.headers.get_all k) := by
  show Except.map _
      (Except.ok ({ r with headers := mergeHeaderSeq r.headers none (iterForm B) })) = _
  rw [Except.map]
  rw [mergeHeaderSeq_get_all B r.headers none k hnodup hne]

/-- A header value from an ASCII literal, not sensitive. -/
def hvStr (s : String) : HeaderValue := { bytes := asciiBytes s, sensitive := false }

/-- The request of the crate's `test_replace_headers` scenario before the
bulk merge: `im-a: keeper` and `foo: pop me`. -/
def reqWithHeaders : Request :=
  { Request.new .GET (UnixUrl.new (asciiBytes "/tmp/my.socket") "/".data) with
    headers := [(asciiBytes "im-a", hvStr "keeper"), (asciiBytes "foo", hvStr "pop me")] }

/-- The bulk collection of `test_replace_headers`: `foo: [bar, baz]`. -/
def bulkFoo : List (HeaderName × List HeaderValue) :=
  [((asciiBytes "foo"), [hvStr "bar", hvStr "baz"])]

/-- C4, witness: the crate's `test_replace_headers` scenario — the bulk
`foo` group replaces `pop me` with exactly `[bar, baz]`, and `im-a`
keeps `keeper`. -/
theorem headers_bulk_merge_witness :
    ((bulkFoo.map Prod.fst).Nodup ∧ (∀ g ∈ bulkFoo, g.2 ≠ [])) ∧
    ((RequestBuilder.headers ⟨Client.mk, .ok reqWithHeaders⟩ (.ok (iterForm bulkFoo))).build.map
        (fun req => req.headers.get_all (asciiBytes "foo")) =
      .ok [hvStr "bar", hvStr "baz"]) ∧
    ((RequestBuilder.headers ⟨Client.mk, .ok reqWithHeaders⟩ (.ok (iterForm bulkFoo))).build.map
        (fun req => req.headers.get_all (asciiBytes "im-a")) =
      .ok [hvStr "keeper"]) :=
  ⟨⟨by decide, by decide⟩,
    headers_bulk_merge Client.mk reqWithHeaders bulkFoo (asciiBytes "foo")
      (by decide) (by decide),
    headers_bulk_merge Client.mk reqWithHeaders bulkFoo (asciiBytes "im-a")
      (by decide) (by decide)⟩

/-! ## Claim C5 — status classification -/

/-- C5: `error_for_status` and `error_for_status_ref` return the
response unchanged for status 1xx/2xx/3xx and exactly for 4xx/5xx
produce `StatusError` carrying the code and the captured reason-phrase
extension, whose `status()` accessor returns the code. -/
theorem error_for_status_classification (r : Response)
    (h1 : 100 ≤ r.status) (h2 : r.status ≤ 599) :
    (r.status ≤ 399 →
      r.error_for_status = .ok r ∧ r.error_for_status_ref = .ok r) ∧
    (400 ≤ r.status →
      r.error_for_status =
        .error (.statusError { code := r.status, reason := r.extensions.reasonPhrase }) ∧
      r.error_for_status_ref =
        .error (.statusError { code := r.status, reason := r.extensions.reasonPhrase }) ∧
      (Error.statusError { code := r.status, reason := r.extensions.reasonPhrase }).status =
        some r.status) := by
  constructor
  · intro h3
    have hc : (is_client_error r.status || is_server_error r.status) = false := by
      simp [is_client_error, is_server_error]
      omega
    constructor <;>
      simp [Response.error_for_status, Response.error_for_status_ref, hc]
  · intro h3
    have hc : (is_client_error r.status || is_server_error r.status) = true := by
      simp [is_client_error, is_server_error]
      omega
    refine ⟨?_, ?_, rfl⟩ <;>
      simp [Response.error_for_status, Response.error_for_status_ref, hc]

/-- A concrete 500 response, used to witness the status classification. -/
def resp500 : Response :=
  { status := 500, version := .http11, headers := [], bodyFrames := []
    extensions := {}, url := UnixUrl.new (asciiBytes "/tmp/my.socket") "/".data }

/-- C5, witness: a 500 response is classified as a server error carrying
code 500. -/
theorem error_for_status_witness :
    (100 ≤ resp500.status ∧ resp500.status ≤ 599 ∧ 400 ≤ resp500.status) ∧
    (resp500.error_for_status =
      .error (.statusError { code := resp500.status, reason := resp500.extensions.reasonPhrase }) ∧
    resp500.error_for_status_ref =
      .error (.statusError { code := resp500.status, reason := resp500.extensions.reasonPhrase }) ∧
    (Error.statusError { code := resp500.status, reason := resp500.extensions.reasonPhrase }).status =
      some resp500.status) :=
  ⟨⟨by decide, by decide, by decide⟩,
    (error_for_status_classification resp500 (by decide) (by decide)).2 (by decide)⟩

/-! ## Claim C9 — incremental body consumption -/

/-- C9: `chunk` pulls exactly one frame: a data frame yields `Some` of
its bytes with all later frames still available, an exhausted stream
yields `None`, and a non-data frame yields `None` for that call without
retrying past it — so a data frame sitting behind a trailers frame
is missed by the documented consumption loop. -/
theorem chunk_incremental :
    (∀ (r : Response) (bs : List Nat) (rest : List (Except HyperError Frame)),
      Response.chunk { r with bodyFrames := .ok (.data bs) :: rest } =
        (.ok (some bs), { r with bodyFrames := rest })) ∧
    (∀ (r : Response),
      Response.chunk { r with bodyFrames := [] } =
        (.ok none, { r with bodyFrames := [] })) ∧
    (∀ (r : Response) (t : HeaderMap) (rest : List (Except HyperError Frame)),
      Response.chunk { r with bodyFrames := .ok (.trailers t) :: rest } =
        (.ok none, { r with bodyFrames := rest })) ∧
    (∀ (chunks : List (List Nat)),
      chunkAll (chunks.map (fun bs => .ok (.data bs))) = chunks) ∧
    (∀ (a b : List Nat) (t : HeaderMap),
      chunkAll [.ok (.data a), .ok (.trailers t), .ok (.data b)] = [a]) := by
  refine ⟨fun _ _ _ => rfl, fun _ => rfl, fun _ _ _ => rfl, ?_, fun _ _ _ => rfl⟩
  intro chunks
  induction chunks with
  | nil => rfl
  | cons bs rest ih => simp [chunkAll, ih]

/-! ## Claim C6 — literal address-encoding example -/

/-- C6: encoding socket path `/tmp/my.socket` with relative path `/`
serializes to exactly `unix://2f746d702f6d792e736f636b6574/`. -/
theorem encode_literal_example :
    (UnixUrl.new (asciiBytes "/tmp/my.socket") "/".data).as_str =
      "unix://2f746d702f6d792e736f636b6574/".data := by
  decide

/-! ## Claim C2 — builder error latch -/

/-- C2: every builder operation applied to a builder in state `Err e`
returns the builder unchanged (same latched error `e`), and `build`
returns `Err e`: the first failure in a chain wins. -/
theorem builder_error_latch (c : Client) (e : Error) :
    (∀ k v, RequestBuilder.header ⟨c, .error e⟩ k v = ⟨c, .error e⟩) ∧
    (∀ k v s, RequestBuilder.header_sensitive ⟨c, .error e⟩ k v s = ⟨c, .error e⟩) ∧
    (∀ hs, RequestBuilder.headers ⟨c, .error e⟩ hs = ⟨c, .error e⟩) ∧
    (∀ u p, RequestBuilder.basic_auth ⟨c, .error e⟩ u p = ⟨c, .error e⟩) ∧
    (∀ t, RequestBuilder.bearer_auth ⟨c, .error e⟩ t = ⟨c, .error e⟩) ∧
    (∀ bd, RequestBuilder.body ⟨c, .error e⟩ bd = ⟨c, .error e⟩) ∧
    (∀ ps se, RequestBuilder.query ⟨c, .error e⟩ ps se = ⟨c, .error e⟩) ∧
    (∀ v, RequestBuilder.version ⟨c, .error e⟩ v = ⟨c, .error e⟩) ∧
    (∀ f, RequestBuilder.form ⟨c, .error e⟩ f = ⟨c, .error e⟩) ∧
    (∀ j, RequestBuilder.json ⟨c, .error e⟩ j = ⟨c, .error e⟩) ∧
    RequestBuilder.build ⟨c, .error e⟩ = .error e :=
  ⟨fun _ _ => rfl, fun _ _ _ => rfl, fun _ => rfl, fun _ _ => rfl, fun _ => rfl,
    fun _ => rfl, fun _ _ => rfl, fun _ => rfl, fun _ => rfl, fun _ => rfl, rfl⟩

/-! ## Claim C7 — basic-auth header -/

/-- C7: `basic_auth` appends a sensitive `Authorization` header whose
value is `Basic ` followed by base64 of `user:password` (or of `user`
when no password is given); for Aladdin / open sesame the value is
exactly `Basic QWxhZGRpbjpvcGVuIHNlc2FtZQ==`. -/
theorem basic_auth_header :
    (∀ (c : Client) (r : Request) (user : List Nat) (pw : Option (List Nat)),
      let value : HeaderValue :=
        { bytes := asciiBytes "Basic " ++
            base64Encode (match pw with | some p => user ++ 58 :: p | none => user)
          sensitive := true }
      RequestBuilder.basic_auth ⟨c, .ok r⟩ user pw =
        ⟨c, .ok ({ r with headers := r.headers.append AUTHORIZATION value })⟩) ∧
    asciiBytes "Basic " ++
        base64Encode (asciiBytes "Aladdin" ++ 58 :: asciiBytes "open sesame") =
      asciiBytes "Basic QWxhZGRpbjpvcGVuIHNlc2FtZQ==" := by
  constructor
  · intro c r user pw
    cases pw <;> rfl
  · decide

/-! ## Claim C8 — builder cloning -/

/-- C8: `try_clone` yields `Some` of a builder holding a value-equal
request exactly when the state is `Ok`, and `None` on `Err`; continuing
the clone's chain (here: setting a body) produces the updated request
while the original builder still builds the unchanged one. -/
theorem try_clone_builder :
    (∀ (c : Client) (e : Error), RequestBuilder.try_clone ⟨c, .error e⟩ = none) ∧
    (∀ (c : Client) (r : Request),
      RequestBuilder.try_clone ⟨c, .ok r⟩ = some ⟨c, .ok r⟩) ∧
    (∀ (c : Client) (r : Request) (bd : Body),
      (RequestBuilder.try_clone ⟨c, .ok r⟩).map
          (fun b2 => ((b2.body bd).build, RequestBuilder.build ⟨c, .ok r⟩)) =
        some (.ok { r with body := some bd }, .ok r)) :=
  ⟨fun _ _ => rfl, fun _ _ => rfl, fun _ _ _ => rfl⟩

/-! ## Claim C3 — query accumulation -/

theorem appendPairsToQuery_append (q : Option (List Char))
    (ps1 ps2 : List (List Nat × List Nat)) :
    appendPairsToQuery q (ps1 ++ ps2) =
      appendPairsToQuery (some (appendPairsToQuery q ps1)) ps2 := by
  simp [appendPairsToQuery, List.foldl_append]

/-- The empty-to-absent normalization applied after the query serializer
is dropped. -/
def normQ (l : List Char) : Option (List Char) :=
  if l = [] then none else some l

theorem normQ_getD (A : List Char) : (normQ A).getD [] = A := by
  by_cases hA : A = [] <;> simp [normQ, hA]

theorem appendPairsToQuery_normQ (A : List Char) (ps : List (List Nat × List Nat)) :
    appendPairsToQuery (normQ A) ps = appendPairsToQuery (some A) ps := by
  simp only [appendPairsToQuery, normQ_getD, Option.getD_some]

theorem query_ok_characterization (c : Client) (r : Request)
    (ps : List (List Nat × List Nat)) :
    RequestBuilder.query ⟨c, .ok r⟩ ps none =
      ⟨c, .ok ({ r with url :=
        { r.url with query := normQ (appendPairsToQuery r.url.query ps) } })⟩ := by
  simp only [RequestBuilder.query, normQ]
  by_cases hA : appendPairsToQuery r.url.query ps = [] <;>
    simp [hA]

/-- C3: `query` accumulates onto the existing query string rather than
replacing it — two successive calls equal one call with the
concatenated pairs; `foo=bar` then `qux=3` yields `foo=bar&qux=3`,
duplicate keys are preserved in order (`foo=a&foo=b`), and an empty
resulting query is normalized to absent. -/
theorem query_accumulation :
    (∀ (c : Client) (r : Request) (ps1 ps2 : List (List Nat × List Nat)),
      RequestBuilder.query (RequestBuilder.query ⟨c, .ok r⟩ ps1 none) ps2 none =
        RequestBuilder.query ⟨c, .ok r⟩ (ps1 ++ ps2) none) ∧
    ((((Client.mk.get (asciiBytes "/tmp/my.socket") "/".data).query
          [(asciiBytes "foo", asciiBytes "bar")] none).query
          [(asciiBytes "qux", asciiBytes "3")] none).build.map
        (fun r => r.url.query) = .ok (some "foo=bar&qux=3".data)) ∧
    (((Client.mk.get (asciiBytes "/tmp/my.socket") "/".data).query
          [(asciiBytes "foo", asciiBytes "a"), (asciiBytes "foo", asciiBytes "b")]
          none).build.map
        (fun r => r.url.query) = .ok (some "foo=a&foo=b".data)) ∧
    (((Client.mk.get (asciiBytes "/tmp/my.socket") "/".data).query [] none).build.map
        (fun r => r.url.query) = .ok none) := by
  refine ⟨?_, by decide, by decide, by decide⟩
  intro c r ps1 ps2
  rw [query_ok_characterization, query_ok_characterization, query_ok_characterization,
    appendPairsToQuery_append]
  dsimp only
  rw [appendPairsToQuery_normQ]

/-! ## Claim C10 — query failure atomicity -/

/-- C10: when query serialization fails, the builder's state becomes the
latched serialization error and the partially-mutated request is
discarded: `build`, `build_split` and `try_clone` observe only the
error. -/
theorem query_failure_atomicity (c : Client) (r : Request)
    (ps : List (List Nat × List Nat)) (e : SerializeUrlError) :
    RequestBuilder.query ⟨c, .ok r⟩ ps (some e) =
      ⟨c, .error (.builderError (.serializeUrl e))⟩ ∧
    (RequestBuilder.query ⟨c, .ok r⟩ ps (some e)).build =
      .error (.builderError (.serializeUrl e)) ∧
    (RequestBuilder.query ⟨c, .ok r⟩ ps (some e)).build_split =
      (c, .error (.builderError (.serializeUrl e))) ∧
    (RequestBuilder.query ⟨c, .ok r⟩ ps (some e)).try_clone = none := by
  have h : RequestBuilder.query ⟨c, .ok r⟩ ps (some e) =
      ⟨c, .error (.builderError (.serializeUrl e))⟩ := by
    simp only [RequestBuilder.query]
  exact ⟨h, by rw [h]; rfl, by rw [h]; rfl, by rw [h]; rfl⟩

end HttpUnixClient
